import Mathlib

/-!
A shallow embedding of the .mp4 virtual-file assembler in `src/mp4.cc`
(moonfire-nvr). Pure translations of:

* `Mp4SampleTablePieces::Init` and the `FillStts/Stss/Stsz` filler closures
  (`mp4.cc` lines 583-711);
* the `Mp4File` constructor precomputation (duration / timestamp fields,
  mdat `largesize`, `initial_sample_byte_pos_`, `FillCo64Entries`;
  lines 361-544);
* `Mp4FileBuilder::Build` (lines 731-758).

Machine integers are modelled as `Int`; wraparound is made explicit with
`Int.emod (2 ^ 32)` / `Int.emod (2 ^ 64)` exactly where the C++ code
converts to `uint32_t` / `uint64_t`.

The `SampleIndexIterator` and the `Recording` record live outside this
repository (only `mp4.cc` is in `src/`); they are modelled from the spec
(sections 3 and 6) where noted.
-/

namespace MoonfireMp4

/-- Wrap an integer into the unsigned 32-bit range, as the C++ conversion
to `uint32_t` does. -/
def u32wrap (x : Int) : Int := x.emod (2 ^ 32)

/-- Wrap an integer into the unsigned 64-bit range, as the C++ conversion
to `uint64_t` does. -/
def u64wrap (x : Int) : Int := x.emod (2 ^ 64)

/-- Big-endian serialization of a 32-bit value, as `AppendU32`/`Append32`
(coding.h) produce.  The value is first reduced to the unsigned 32-bit
range (two's-complement bytes of an `int32_t` coincide with those of the
reduced value). -/
def be32 (v : Int) : List Nat :=
  let n := (u32wrap v).toNat
  [n / 16777216 % 256, n / 65536 % 256, n / 256 % 256, n % 256]

/-- Modelled from the spec: one decoded entry of a recording's
`video_index` (section 6, SampleIndexIterator accessor contract): a frame
has a duration and byte count, and a key-frame flag. -/
structure Frame where
  duration_90k : Int
  bytes : Int
  is_key : Bool
deriving DecidableEq, Repr

/-- Modelled from the spec: the attributes of `Recording` the mp4 core
reads (data-model table, section 3).  The uuid and sha1 fields only feed
the etag and the sample-file open call, which no claim concerns, so they
are omitted. -/
structure Recording where
  start_time_90k : Int
  end_time_90k : Int
  sample_file_bytes : Int
  video_samples : Int
  video_sync_samples : Int
  video_sample_entry_id : Int
  video_index : List Frame
deriving DecidableEq, Repr

/-- `recording->end_time_90k - recording->start_time_90k`
(mp4.cc lines 591-592). -/
def recordingDuration (r : Recording) : Int := r.end_time_90k - r.start_time_90k

/-- Modelled from the spec: the state of a `SampleIndexIterator` positioned
at one frame — its absolute `start_90k` (90 kHz ticks from the recording
start), its byte offset `pos` in the sample file, and the frame fields
(section 6). -/
structure IterFrame where
  start_90k : Int
  pos : Int
  duration_90k : Int
  bytes : Int
  is_key : Bool
deriving DecidableEq, Repr

/-- Modelled from the spec: enumerate the iterator states over a decoded
index, accumulating start times and byte positions from `s` and `p`.
Per section 3, the per-frame durations sum to the recording's span and the
byte counts to `sample_file_bytes`, i.e. starts and positions accumulate
from zero. -/
def indexFramesFrom (s p : Int) : List Frame → List IterFrame
  | [] => []
  | f :: rest =>
      ⟨s, p, f.duration_90k, f.bytes, f.is_key⟩ ::
        indexFramesFrom (s + f.duration_90k) (p + f.bytes) rest

/-- Modelled from the spec: the full iterator run, from position 0. -/
def indexFrames (fs : List Frame) : List IterFrame := indexFramesFrom 0 0 fs

/-- Total byte count of an index: the value of `it.pos()` once the
iterator is done. -/
def totalIndexBytes (fs : List Frame) : Int := (fs.map (·.bytes)).sum

/-- Well-formedness of a recording, from the data-model invariants of
spec section 3: the index decodes to exactly `video_samples` entries whose
durations sum to `end - start` and whose sizes sum to `sample_file_bytes`;
`video_sync_samples` counts the key frames; every frame has positive
duration; the first sample is a key frame. -/
def WFRecording (r : Recording) : Prop :=
  ((r.video_index.map (·.duration_90k)).sum = recordingDuration r) ∧
  ((r.video_index.map (·.bytes)).sum = r.sample_file_bytes) ∧
  ((r.video_index.length : Int) = r.video_samples) ∧
  (((r.video_index.filter (·.is_key)).length : Int) = r.video_sync_samples) ∧
  (∀ f ∈ r.video_index, 1 ≤ f.duration_90k) ∧
  (∀ f ∈ r.video_index.take 1, f.is_key = true)

instance (r : Recording) : Decidable (WFRecording r) := by
  unfold WFRecording; infer_instance

/-- The outputs of `Mp4SampleTablePieces::Init` (mp4.cc lines 583-656):
the fields of the C++ object that the fillers and the enclosing `Mp4File`
later read.  `begin` is the saved `begin_` iterator, represented as the
suffix of iterator states from its position (`none` is the
default-constructed, already-done iterator). -/
structure Mp4SampleTablePieces where
  sample_entry_index : Int
  sample_offset : Int
  desired_end_90k : Int
  begin : Option (List IterFrame)
  sample_pos_begin : Int
  sample_pos_end : Int
  frames : Int
  key_frames : Int
  actual_end_90k : Int
deriving DecidableEq, Repr

/-- The loop state of the slow path of `Init` before `sample_pos_.end` is
assigned: the members mutated inside the `for` loop
(mp4.cc lines 607-631). -/
structure InitAccum where
  begin : Option (List IterFrame)
  sample_pos_begin : Int
  frames : Int
  key_frames : Int
  actual_end_90k : Int
deriving DecidableEq, Repr

/-- Member defaults of `Mp4SampleTablePieces` before the slow-path loop:
default (done) `begin_` iterator, zero counters and positions (mp4.h is
not in `src/`; zero defaults modelled from the spec, whose section 4.3
leaves them untouched when no frame is selected). -/
def initAccum0 : InitAccum := ⟨none, 0, 0, 0, 0⟩

/-- The slow-path scan of `Init` (mp4.cc lines 607-632):

```
for (; !it.done(); it.Next()) {
  if (it.start_90k() <= start_90k && it.is_key()) {
    begin_ = it; sample_pos_.begin = begin_.pos(); frames_ = 0; key_frames_ = 0;
  }
  if (it.start_90k() >= end_90k) break;
  frames_++;
  if (it.is_key()) key_frames_++;
  actual_end_90k_ = it.end_90k();
}
sample_pos_.end = it.pos();
```

Returns the final accumulator and the value of `it.pos()` at loop exit
(`endPos` is the done-iterator position, i.e. the index's total bytes). -/
def slowLoop (start90k end90k endPos : Int) :
    List IterFrame → InitAccum → InitAccum × Int
  | [], st => (st, endPos)
  | f :: rest, st =>
      let st1 :=
        if f.start_90k ≤ start90k ∧ f.is_key = true then
          { st with begin := some (f :: rest), sample_pos_begin := f.pos,
                    frames := 0, key_frames := 0 }
        else st
      if end90k ≤ f.start_90k then (st1, f.pos)
      else
        slowLoop start90k end90k endPos rest
          { st1 with
              frames := st1.frames + 1,
              key_frames := st1.key_frames + (if f.is_key then 1 else 0),
              actual_end_90k := f.start_90k + f.duration_90k }

/-- `!it.done() && !it.is_key()` for the freshly constructed iterator
(mp4.cc line 603). -/
def headNotKey : List IterFrame → Bool
  | [] => false
  | f :: _ => f.is_key = false

/-- `Mp4SampleTablePieces::Init` (mp4.cc lines 583-656), as a pure
function from its inputs to either the error message or the resulting
piece state.  The trailing `stts_/stss_/stsz_entries_.Init` calls only
record the declared filler sizes (`sttsDeclaredSize` etc. below). -/
def Mp4SampleTablePieces.Init (r : Recording)
    (sample_entry_index sample_offset start90k end90k : Int) :
    Except String Mp4SampleTablePieces :=
  let it := indexFrames r.video_index
  if start90k = 0 ∧ recordingDuration r ≤ end90k then
    .ok { sample_entry_index := sample_entry_index,
          sample_offset := sample_offset,
          desired_end_90k := end90k,
          begin := some it,
          sample_pos_begin := 0,
          sample_pos_end := r.sample_file_bytes,
          frames := r.video_samples,
          key_frames := r.video_sync_samples,
          actual_end_90k := recordingDuration r }
  else if headNotKey it then
    .error ("First frame must be a key frame.")
  else
    let res := slowLoop start90k end90k (totalIndexBytes r.video_index) it initAccum0
    .ok { sample_entry_index := sample_entry_index,
          sample_offset := sample_offset,
          desired_end_90k := end90k,
          begin := res.1.begin,
          sample_pos_begin := res.1.sample_pos_begin,
          sample_pos_end := res.2,
          frames := res.1.frames,
          key_frames := res.1.key_frames,
          actual_end_90k := res.1.actual_end_90k }

/-- The frames visited by every filler closure:
`for (it = begin_; !it.done() && it.start_90k() < desired_end_90k_; it.Next())`
(mp4.cc lines 661, 677, 702). -/
def includedFrames (p : Mp4SampleTablePieces) : List IterFrame :=
  match p.begin with
  | none => []
  | some it => it.takeWhile (fun f => f.start_90k < p.desired_end_90k)

/-- `Mp4SampleTablePieces::FillSttsEntries` (mp4.cc lines 658-671): per
included frame, `AppendU32(1)` then `AppendU32(duration)`. -/
def Mp4SampleTablePieces.FillSttsEntries (p : Mp4SampleTablePieces) : List Nat :=
  (includedFrames p).flatMap (fun f => be32 1 ++ be32 f.duration_90k)

/-- `Mp4SampleTablePieces::FillStszEntries` (mp4.cc lines 699-711): per
included frame, `Append32(bytes)`. -/
def Mp4SampleTablePieces.FillStszEntries (p : Mp4SampleTablePieces) : List Nat :=
  (includedFrames p).flatMap (fun f => be32 f.bytes)

/-- The sample numbers appended by `Mp4SampleTablePieces::FillStssEntries`
(mp4.cc lines 673-689): `sample_num` starts at `sample_offset_` and is
incremented per visited frame; it is appended when the frame is a key
frame. -/
def fillStssNums (sample_num : Int) : List IterFrame → List Int
  | [] => []
  | f :: rest =>
      if f.is_key then sample_num :: fillStssNums (sample_num + 1) rest
      else fillStssNums (sample_num + 1) rest

/-- `Mp4SampleTablePieces::FillStssEntries` byte output. -/
def Mp4SampleTablePieces.FillStssEntries (p : Mp4SampleTablePieces) : List Nat :=
  (fillStssNums p.sample_offset (includedFrames p)).flatMap (fun n => be32 n)

/-- Declared size of the `stts` filler:
`stts_entries_.Init(2 * sizeof(int32_t) * stts_entry_count(), ...)`
(mp4.cc line 643), with `stts_entry_count() = frames_` (accessor in mp4.h,
not in `src/`; modelled from the spec, section 4.3: 8 * frames bytes). -/
def sttsDeclaredSize (p : Mp4SampleTablePieces) : Int := 2 * 4 * p.frames

/-- Declared size of the `stss` filler (mp4.cc line 647; spec section 4.3:
4 * key_frames bytes). -/
def stssDeclaredSize (p : Mp4SampleTablePieces) : Int := 4 * p.key_frames

/-- Declared size of the `stsz` filler (mp4.cc line 651; spec section 4.3:
4 * frames bytes). -/
def stszDeclaredSize (p : Mp4SampleTablePieces) : Int := 4 * p.frames

/-- `begin_.start_90k()` — modelled from the spec (section 6 accessor
contract); a default/done iterator reads 0. -/
def Mp4SampleTablePieces.beginStart90k (p : Mp4SampleTablePieces) : Int :=
  match p.begin with
  | some (f :: _) => f.start_90k
  | _ => 0

/-- `pieces.duration_90k()` — accessor in mp4.h, not in `src/`. Modelled
from the spec (section 4.3 tie-break note: callers advertise
`actual_end_90k - begin.start_90k` as the segment duration). -/
def Mp4SampleTablePieces.duration_90k (p : Mp4SampleTablePieces) : Int :=
  p.actual_end_90k - p.beginStart90k

/-- `pieces.end_90k()` — accessor in mp4.h, not in `src/`. Modelled from
the spec (section 4.5: `max_end_90k` uses the actual end of the selected
window). -/
def Mp4SampleTablePieces.end_90k (p : Mp4SampleTablePieces) : Int :=
  p.actual_end_90k

/-- `pieces.samples()` — accessor in mp4.h, not in `src/`. Modelled from
the spec (section 4.6: Build advances `sample_offset` by the segment's
frame count). -/
def Mp4SampleTablePieces.samples (p : Mp4SampleTablePieces) : Int := p.frames

/-- The fields of `VideoSampleEntry` the mp4 core reads (data-model table,
section 3; the sha1 is only used in an error message). -/
structure VideoSampleEntry where
  id : Int
  width : Int
  height : Int
  data : List Nat
deriving DecidableEq, Repr

/-- One `Mp4FileSegment` after a successful Build (mp4.cc lines 715-724
plus the `pieces` filled in by `Build`). -/
structure Mp4FileSegment where
  recording : Recording
  rel_start_90k : Int
  rel_end_90k : Int
  pieces : Mp4SampleTablePieces
deriving DecidableEq, Repr

/-- `segment->sample_file_slice.size()`: the slice is opened over
`pieces.sample_pos()` (mp4.cc lines 395-397) and a sample-file slice's
size is the width of its sub-range (spec section 6, open interface). -/
def sampleFileSliceSize (s : Mp4FileSegment) : Int :=
  s.pieces.sample_pos_end - s.pieces.sample_pos_begin

/-- The per-segment loop of `Mp4FileBuilder::Build` (mp4.cc lines 732-749):
check the sample-entry id, run `Init` with sample entry index 1 and the
running `sample_offset`, advance the offset by `pieces.samples()`. -/
def buildSegments (entry : VideoSampleEntry) (sample_offset : Int) :
    List (Recording × Int × Int) → Except String (List Mp4FileSegment)
  | [] => .ok []
  | (r, rs, re) :: rest =>
      if r.video_sample_entry_id ≠ entry.id then
        .error ("inconsistent video sample entries.")
      else
        match Mp4SampleTablePieces.Init r 1 sample_offset rs re with
        | .error m => .error m
        | .ok p =>
            match buildSegments entry (sample_offset + p.samples) rest with
            | .error m => .error m
            | .ok segs =>
                .ok ({ recording := r, rel_start_90k := rs, rel_end_90k := re,
                       pieces := p } :: segs)

/-- `Mp4FileBuilder::Build` (mp4.cc lines 731-758): run the per-segment
loop starting from `sample_offset = 1`, then reject an empty segment
list.  An `.error` result models the null `VirtualFile` return. -/
def Mp4FileBuilder.Build (entry : VideoSampleEntry)
    (items : List (Recording × Int × Int)) :
    Except String (List Mp4FileSegment) :=
  match buildSegments entry 1 items with
  | .error m => .error m
  | .ok segs => if segs.isEmpty then .error ("cannot construct empty .mp4")
                else .ok segs

/-- The movie duration accumulated in the `Mp4File` constructor
(mp4.cc lines 374-377): `uint32_t duration = 0; duration += pieces.duration_90k();`
— each addition wraps in the unsigned 32-bit counter. -/
def mp4Duration (segs : List Mp4FileSegment) : Int :=
  segs.foldl (fun d s => u32wrap (d + s.pieces.duration_90k)) 0

/-- `max_time_90k` from the `Mp4File` constructor (mp4.cc lines 375-381). -/
def mp4MaxTime90k (segs : List Mp4FileSegment) : Int :=
  segs.foldl (fun m s => max m (s.recording.start_time_90k + s.pieces.end_90k)) 0

/-- `ToIso14496Timestamp` (mp4.cc lines 156-160): the `int64_t` argument
is converted to `uint64_t`, divided by `kTimeUnitsPerSecond` (90000), and
the epoch offset added; the `uint32_t` return truncates. -/
def ToIso14496Timestamp (time_90k : Int) : Int :=
  u32wrap (u64wrap time_90k / 90000 + 24107 * 86400)

/-- The timestamp and duration fields written into the mvhd, tkhd and
mdhd headers by `Mp4File::AppendMoov` (mp4.cc lines 426-455). -/
structure MoovTimeFields where
  mvhd_creation_time : Int
  mvhd_modification_time : Int
  mvhd_duration : Int
  tkhd_creation_time : Int
  tkhd_modification_time : Int
  tkhd_duration : Int
  mdhd_creation_time : Int
  mdhd_modification_time : Int
  mdhd_duration : Int
deriving DecidableEq, Repr

/-- `AppendMoov(net_duration, net_creation_ts)` field assignments
(mp4.cc lines 383-387 and 426-455): `net_duration` and `net_creation_ts`
are computed once in the constructor and stored into all three headers. -/
def appendMoovFields (segs : List Mp4FileSegment) : MoovTimeFields :=
  let net_duration := mp4Duration segs
  let net_creation_ts := ToIso14496Timestamp (mp4MaxTime90k segs)
  { mvhd_creation_time := net_creation_ts,
    mvhd_modification_time := net_creation_ts,
    mvhd_duration := net_duration,
    tkhd_creation_time := net_creation_ts,
    tkhd_modification_time := net_creation_ts,
    tkhd_duration := net_duration,
    mdhd_creation_time := net_creation_ts,
    mdhd_modification_time := net_creation_ts,
    mdhd_duration := net_duration }

/-- Size of the `stbl` box as laid out by `Mp4File::AppendStbl`
(mp4.cc lines 466-525): an 8-byte container header plus
stsd (16-byte header + sample entry data), stts (16 + declared fillers),
stsc (16 + 12 bytes per segment), stsz (20 + declared fillers),
co64 (16 + 8 bytes per segment), stss (16 + declared fillers). -/
def stblSize (segs : List Mp4FileSegment) (entry : VideoSampleEntry) : Int :=
  8 + (16 + (entry.data.length : Int))
    + (16 + (segs.map (fun s => sttsDeclaredSize s.pieces)).sum)
    + (16 + 12 * (segs.length : Int))
    + (20 + (segs.map (fun s => stszDeclaredSize s.pieces)).sum)
    + (16 + 8 * (segs.length : Int))
    + (16 + (segs.map (fun s => stssDeclaredSize s.pieces)).sum)

/-- Size of the `moov` box laid out by `Mp4File::AppendMoov`
(mp4.cc lines 426-464): moov header 8 + mvhd 108 + (trak header 8 +
tkhd 92 + (mdia header 8 + mdhd 32 + hdlr 33 + (minf header 8 +
vmhd-and-dinf 56 + stbl))).  The struct sizes follow the packed box
structs of mp4.cc lines 162-285 and the static constants of lines
108-154. -/
def moovSize (segs : List Mp4FileSegment) (entry : VideoSampleEntry) : Int :=
  8 + 108 + (8 + 92 + (8 + 32 + 33 + (8 + 56 + stblSize segs entry)))

/-- `size_before_mdat` (mp4.cc line 391): the 32-byte `ftyp` constant plus
the whole moov tree. -/
def sizeBeforeMdat (segs : List Mp4FileSegment) (entry : VideoSampleEntry) : Int :=
  32 + moovSize segs entry

/-- `initial_sample_byte_pos_` (mp4.cc line 393): the position after the
16-byte `LargeMediaDataBox` header (`u32 size=1`, type, `u64 largesize`). -/
def initialSampleBytePos (segs : List Mp4FileSegment) (entry : VideoSampleEntry) : Int :=
  sizeBeforeMdat segs entry + 16

/-- Total size of the segments' sample-file slices appended inside mdat
(mp4.cc lines 394-399). -/
def segsSliceSum (segs : List Mp4FileSegment) : Int :=
  (segs.map sampleFileSliceSize).sum

/-- The total virtual-file size after construction. -/
def mp4TotalSize (segs : List Mp4FileSegment) (entry : VideoSampleEntry) : Int :=
  initialSampleBytePos segs entry + segsSliceSum segs

/-- The value stored in the mdat header's `largesize` field:
`ToNetworkU64(slices_.size() - size_before_mdat)` (mp4.cc line 400). -/
def mdatLargesize (segs : List Mp4FileSegment) (entry : VideoSampleEntry) : Int :=
  u64wrap (mp4TotalSize segs entry - sizeBeforeMdat segs entry)

/-- The running-position loop of `Mp4File::FillCo64Entries`
(mp4.cc lines 537-544): `AppendU64(pos)` per segment, advancing `pos` by
the segment's slice size. -/
def co64From (pos : Int) : List Mp4FileSegment → List Int
  | [] => []
  | s :: rest => pos :: co64From (pos + sampleFileSliceSize s) rest

/-- `Mp4File::FillCo64Entries` output values, starting from
`initial_sample_byte_pos_`. -/
def FillCo64Entries (segs : List Mp4FileSegment) (entry : VideoSampleEntry) : List Int :=
  co64From (initialSampleBytePos segs entry) segs

/-- The concatenation of all segments' stss sample numbers, in file order
(mp4.cc lines 516-524 append the per-segment `stss_entries()` slices in
segment order). -/
def mp4StssNums (segs : List Mp4FileSegment) : List Int :=
  segs.flatMap (fun s => fillStssNums s.pieces.sample_offset (includedFrames s.pieces))

/-- The `sample_offset` values `Mp4FileBuilder::Build` hands to the
successive `Init` calls: the first segment gets `o`, and each segment
advances the counter by its frame count (mp4.cc lines 732, 744, 748). -/
def offsetsFrom (o : Int) : List Mp4FileSegment → Prop
  | [] => True
  | s :: rest => s.pieces.sample_offset = o ∧ offsetsFrom (o + s.pieces.frames) rest

/-! Proof infrastructure: a contiguity predicate for iterator-state lists,
and a specification function describing which `begin` candidate the
slow-path loop keeps. -/

/-- Sum of the durations of a run of iterator states. -/
def sumDur (L : List IterFrame) : Int := (L.map (·.duration_90k)).sum

/-- The iterator states in `L` are the contiguous run that starts at time
`s` and byte position `p`: each state advances by its frame's duration and
byte count. -/
def contigFrom (s p : Int) : List IterFrame → Prop
  | [] => True
  | f :: rest =>
      f.start_90k = s ∧ f.pos = p ∧
        contigFrom (s + f.duration_90k) (p + f.bytes) rest

/-- The last `begin` candidate the slow-path loop would adopt while
scanning `L`: the latest suffix whose head is a key frame with
`start_90k ≤ start90k`, among the frames scanned before (and including)
the first frame with `start_90k ≥ end90k`. -/
def lastCandidate (start90k end90k : Int) : List IterFrame → Option (List IterFrame)
  | [] => none
  | f :: rest =>
      let cur := if f.start_90k ≤ start90k ∧ f.is_key = true then some (f :: rest)
                 else none
      if end90k ≤ f.start_90k then cur
      else
        match lastCandidate start90k end90k rest with
        | some r => some r
        | none => cur

/-- Number of frames at the front of `L` with `start_90k < e`: how many
frames a filler-style scan starting at `L` visits. -/
def twLen (e : Int) (L : List IterFrame) : Int :=
  ((L.takeWhile (fun f => f.start_90k < e)).length : Int)

/-- Number of key frames among the frames counted by `twLen`. -/
def twKeys (e : Int) (L : List IterFrame) : Int :=
  (((L.takeWhile (fun f => f.start_90k < e)).filter (fun f => f.is_key)).length : Int)

/-! Concrete instances used by witnesses and counterexamples. -/

/-- A minimal one-frame recording (1 tick, 1 byte, key frame). -/
def cRec1 : Recording :=
  { start_time_90k := 0, end_time_90k := 1, sample_file_bytes := 1,
    video_samples := 1, video_sync_samples := 1, video_sample_entry_id := 1,
    video_index := [⟨1, 1, true⟩] }

/-- A one-frame recording spanning 10 ticks. -/
def cRec2 : Recording :=
  { start_time_90k := 0, end_time_90k := 10, sample_file_bytes := 5,
    video_samples := 1, video_sync_samples := 1, video_sample_entry_id := 1,
    video_index := [⟨10, 5, true⟩] }

/-- A recording whose single (first) frame is not a key frame. -/
def cRec3 : Recording :=
  { start_time_90k := 0, end_time_90k := 1, sample_file_bytes := 1,
    video_samples := 1, video_sync_samples := 0, video_sample_entry_id := 1,
    video_index := [⟨1, 1, false⟩] }

/-- A four-frame recording with key frames at ticks 0 and 4. -/
def cRec4 : Recording :=
  { start_time_90k := 0, end_time_90k := 8, sample_file_bytes := 40,
    video_samples := 4, video_sync_samples := 2, video_sample_entry_id := 1,
    video_index := [⟨2, 10, true⟩, ⟨2, 10, false⟩, ⟨2, 10, true⟩, ⟨2, 10, false⟩] }

/-- A sample entry matching the concrete recordings. -/
def cEntry : VideoSampleEntry := { id := 1, width := 4, height := 4, data := [] }

/-- The segment list of a concrete one-segment Mp4File built from
`cRec1`. -/
def cSegs1 : List Mp4FileSegment :=
  (Mp4FileBuilder.Build cEntry [(cRec1, 0, 1)]).toOption.getD []

/-- The segment list of a concrete two-segment Mp4File built from `cRec4`
and `cRec2`, both on the fast path. -/
def cSegs2 : List Mp4FileSegment :=
  (Mp4FileBuilder.Build cEntry [(cRec4, 0, 8), (cRec2, 0, 10)]).toOption.getD []

/-- An all-zero pieces record, used as a fallback when extracting the
result of a concrete `Init` call. -/
def cPiecesZero : Mp4SampleTablePieces :=
  { sample_entry_index := 0, sample_offset := 0, desired_end_90k := 0,
    begin := none, sample_pos_begin := 0, sample_pos_end := 0,
    frames := 0, key_frames := 0, actual_end_90k := 0 }

/-- The pieces produced by the slow path on `cRec4` with window `[5, 7)`. -/
def cP2 : Mp4SampleTablePieces :=
  (Mp4SampleTablePieces.Init cRec4 1 1 5 7).toOption.getD cPiecesZero

/-- The pieces produced by the slow path on `cRec4` with window `[3, 7)`. -/
def cP4 : Mp4SampleTablePieces :=
  (Mp4SampleTablePieces.Init cRec4 1 1 3 7).toOption.getD cPiecesZero

/-! Basic lemmas about the byte encoders and the iterator model. -/

theorem be32_length (v : Int) : (be32 v).length = 4 := rfl

theorem flatMap_const_length {α : Type} (k : Nat) (g : α → List Nat)
    (hg : ∀ x, (g x).length = k) :
    ∀ L : List α, (L.flatMap g).length = k * L.length
  | [] => by simp
  | x :: rest => by
      simp only [List.flatMap_cons, List.length_append, hg x,
        flatMap_const_length k g hg rest, List.length_cons]
      ring

theorem fillStssNums_length :
    ∀ (L : List IterFrame) (o : Int),
      (fillStssNums o L).length = (L.filter (fun f => f.is_key)).length
  | [], _ => rfl
  | f :: rest, o => by
      by_cases hk : f.is_key
      · simp [fillStssNums, hk, fillStssNums_length rest]
      · simp [fillStssNums, hk, fillStssNums_length rest]

theorem indexFramesFrom_length :
    ∀ (fs : List Frame) (s p : Int), (indexFramesFrom s p fs).length = fs.length
  | [], _, _ => rfl
  | f :: rest, s, p => by
      simp [indexFramesFrom, indexFramesFrom_length rest]

theorem indexFramesFrom_sumDur :
    ∀ (fs : List Frame) (s p : Int),
      sumDur (indexFramesFrom s p fs) = (fs.map (·.duration_90k)).sum
  | [], _, _ => rfl
  | f :: rest, s, p => by
      have ih := indexFramesFrom_sumDur rest (s + f.duration_90k) (p + f.bytes)
      simp only [sumDur] at ih ⊢
      simp [indexFramesFrom, ih]

theorem indexFramesFrom_keys :
    ∀ (fs : List Frame) (s p : Int),
      ((indexFramesFrom s p fs).filter (fun f => f.is_key)).length =
        (fs.filter (·.is_key)).length
  | [], _, _ => rfl
  | f :: rest, s, p => by
      by_cases hk : f.is_key
      · simp [indexFramesFrom, hk, indexFramesFrom_keys rest]
      · simp [indexFramesFrom, hk, indexFramesFrom_keys rest]

theorem indexFramesFrom_contig :
    ∀ (fs : List Frame) (s p : Int), contigFrom s p (indexFramesFrom s p fs)
  | [], _, _ => trivial
  | f :: rest, s, p =>
      ⟨rfl, rfl, indexFramesFrom_contig rest (s + f.duration_90k) (p + f.bytes)⟩

theorem indexFramesFrom_dur_pos
    {fs : List Frame} (hfs : ∀ f ∈ fs, 1 ≤ f.duration_90k) :
    ∀ (s p : Int), ∀ g ∈ indexFramesFrom s p fs, 1 ≤ g.duration_90k := by
  induction fs with
  | nil => intro s p g hg; simp [indexFramesFrom] at hg
  | cons f rest ih =>
      intro s p g hg
      simp only [indexFramesFrom, List.mem_cons] at hg
      rcases hg with rfl | hg
      · exact hfs f (by simp)
      · exact ih (fun x hx => hfs x (by simp [hx])) _ _ g hg

theorem indexFrames_length (fs : List Frame) :
    (indexFrames fs).length = fs.length :=
  indexFramesFrom_length fs 0 0

theorem indexFrames_sumDur (fs : List Frame) :
    sumDur (indexFrames fs) = (fs.map (·.duration_90k)).sum :=
  indexFramesFrom_sumDur fs 0 0

theorem indexFrames_keys (fs : List Frame) :
    ((indexFrames fs).filter (fun f => f.is_key)).length =
      (fs.filter (·.is_key)).length :=
  indexFramesFrom_keys fs 0 0

theorem indexFrames_cons (g : Frame) (gs : List Frame) :
    indexFrames (g :: gs) =
      (⟨0, 0, g.duration_90k, g.bytes, g.is_key⟩ : IterFrame) ::
        indexFramesFrom (0 + g.duration_90k) (0 + g.bytes) gs := rfl

theorem sumDur_nonneg {L : List IterFrame}
    (h : ∀ g ∈ L, 1 ≤ g.duration_90k) : 0 ≤ sumDur L := by
  refine List.sum_nonneg ?_
  intro x hx
  simp only [List.mem_map] at hx
  obtain ⟨g, hg, rfl⟩ := hx
  linarith [h g hg]

theorem contig_mono :
    ∀ (L : List IterFrame) (c p : Int), contigFrom c p L →
      (∀ g ∈ L, 1 ≤ g.duration_90k) → ∀ z ∈ L, c ≤ z.start_90k
  | [], _, _, _, _, z, hz => by simp at hz
  | f :: rest, c, p, hcontig, hdur, z, hz => by
      obtain ⟨hstart, _, hrest⟩ := hcontig
      rcases List.mem_cons.mp hz with rfl | hz
      · exact le_of_eq hstart.symm
      · have h1 : 1 ≤ f.duration_90k := hdur f (by simp)
        have := contig_mono rest _ _ hrest
          (fun g hg => hdur g (by simp [hg])) z hz
        linarith

theorem contig_ub :
    ∀ (L : List IterFrame) (c p : Int), contigFrom c p L →
      (∀ g ∈ L, 1 ≤ g.duration_90k) →
      ∀ z ∈ L, z.start_90k + 1 ≤ c + sumDur L
  | [], _, _, _, _, z, hz => by simp at hz
  | f :: rest, c, p, hcontig, hdur, z, hz => by
      obtain ⟨hstart, _, hrest⟩ := hcontig
      have hdrest : ∀ g ∈ rest, 1 ≤ g.duration_90k :=
        fun g hg => hdur g (by simp [hg])
      have hsum : sumDur (f :: rest) = f.duration_90k + sumDur rest := by
        simp [sumDur]
      rcases List.mem_cons.mp hz with rfl | hz
      · have h1 : 1 ≤ z.duration_90k := hdur z (by simp)
        have h2 : 0 ≤ sumDur rest := sumDur_nonneg hdrest
        rw [hsum]; linarith
      · have := contig_ub rest _ _ hrest hdrest z hz
        rw [hsum]; linarith

theorem takeWhile_eq_self_of_all {α : Type} {q : α → Bool} :
    ∀ L : List α, (∀ x ∈ L, q x = true) → L.takeWhile q = L
  | [], _ => rfl
  | x :: rest, h => by
      rw [List.takeWhile_cons_of_pos (h x (by simp))]
      rw [takeWhile_eq_self_of_all rest (fun y hy => h y (by simp [hy]))]

/-! Characterization of the slow-path loop: which `begin` candidate it
keeps, the final frame counters, and a lower bound on the actual end. -/

theorem slowLoop_begin (s e ep : Int) :
    ∀ (L : List IterFrame) (st : InitAccum),
      (slowLoop s e ep L st).1.begin =
        match lastCandidate s e L with
        | some x => some x
        | none => st.begin
  | [], st => by simp [slowLoop, lastCandidate]
  | f :: rest, st => by
      by_cases hb : e ≤ f.start_90k
      · by_cases hc : f.start_90k ≤ s ∧ f.is_key = true
        · simp [slowLoop, lastCandidate, hb, hc]
        · simp [slowLoop, lastCandidate, hb, hc]
      · by_cases hc : f.start_90k ≤ s ∧ f.is_key = true
        · simp only [slowLoop, lastCandidate, hb, hc, if_true, if_false,
            and_self, ite_true, ite_false]
          rw [slowLoop_begin s e ep rest]
          cases h : lastCandidate s e rest <;> simp [h]
        · simp only [slowLoop, lastCandidate, hb, hc, if_true, if_false,
            ite_true, ite_false]
          rw [slowLoop_begin s e ep rest]
          cases h : lastCandidate s e rest <;> simp [h]

theorem twLen_cons_of_lt {e : Int} {f : IterFrame} {rest : List IterFrame}
    (h : f.start_90k < e) : twLen e (f :: rest) = 1 + twLen e rest := by
  simp only [twLen]
  rw [List.takeWhile_cons_of_pos (by simpa using h)]
  simp [Int.add_comm]

theorem twLen_cons_of_ge {e : Int} {f : IterFrame} {rest : List IterFrame}
    (h : e ≤ f.start_90k) : twLen e (f :: rest) = 0 := by
  simp only [twLen]
  rw [List.takeWhile_cons_of_neg (by simpa using not_lt.mpr h)]
  simp

theorem slowLoop_frames (s e ep : Int) :
    ∀ (L : List IterFrame) (st : InitAccum),
      (slowLoop s e ep L st).1.frames =
        match lastCandidate s e L with
        | some x => twLen e x
        | none => st.frames + twLen e L
  | [], st => by simp [slowLoop, lastCandidate, twLen]
  | f :: rest, st => by
      by_cases hb : e ≤ f.start_90k
      · by_cases hc : f.start_90k ≤ s ∧ f.is_key = true
        · simp [slowLoop, lastCandidate, hb, hc, twLen_cons_of_ge hb]
        · simp [slowLoop, lastCandidate, hb, hc, twLen_cons_of_ge hb]
      · have hlt : f.start_90k < e := not_le.mp hb
        by_cases hc : f.start_90k ≤ s ∧ f.is_key = true
        · simp only [slowLoop, lastCandidate, hb, hc, if_true, if_false,
            and_self, ite_true, ite_false]
          rw [slowLoop_frames s e ep rest]
          cases h : lastCandidate s e rest
          · simp [h, twLen_cons_of_lt hlt]
          · simp [h]
        · simp only [slowLoop, lastCandidate, hb, hc, if_true, if_false,
            ite_true, ite_false]
          rw [slowLoop_frames s e ep rest]
          cases h : lastCandidate s e rest
          · simp only [h, twLen_cons_of_lt hlt]
            ring
          · simp [h]

theorem twKeys_cons_of_lt {e : Int} {f : IterFrame} {rest : List IterFrame}
    (h : f.start_90k < e) :
    twKeys e (f :: rest) = (if f.is_key then 1 else 0) + twKeys e rest := by
  simp only [twKeys]
  rw [List.takeWhile_cons_of_pos (by simpa using h)]
  by_cases hk : f.is_key
  · simp [hk, Int.add_comm]
  · simp [hk]

theorem twKeys_cons_of_ge {e : Int} {f : IterFrame} {rest : List IterFrame}
    (h : e ≤ f.start_90k) : twKeys e (f :: rest) = 0 := by
  simp only [twKeys]
  rw [List.takeWhile_cons_of_neg (by simpa using not_lt.mpr h)]
  simp

theorem slowLoop_keyFrames (s e ep : Int) :
    ∀ (L : List IterFrame) (st : InitAccum),
      (slowLoop s e ep L st).1.key_frames =
        match lastCandidate s e L with
        | some x => twKeys e x
        | none => st.key_frames + twKeys e L
  | [], st => by simp [slowLoop, lastCandidate, twKeys]
  | f :: rest, st => by
      by_cases hb : e ≤ f.start_90k
      · by_cases hc : f.start_90k ≤ s ∧ f.is_key = true
        · simp [slowLoop, lastCandidate, hb, hc, twKeys_cons_of_ge hb]
        · simp [slowLoop, lastCandidate, hb, hc, twKeys_cons_of_ge hb]
      · have hlt : f.start_90k < e := not_le.mp hb
        by_cases hc : f.start_90k ≤ s ∧ f.is_key = true
        · simp only [slowLoop, lastCandidate, hb, hc, if_true, if_false,
            and_self, ite_true, ite_false]
          rw [slowLoop_keyFrames s e ep rest]
          cases h : lastCandidate s e rest
          · simp [h, hc.2, twKeys_cons_of_lt hlt]
          · simp [h]
        · simp only [slowLoop, lastCandidate, hb, hc, if_true, if_false,
            ite_true, ite_false]
          rw [slowLoop_keyFrames s e ep rest]
          cases h : lastCandidate s e rest
          · by_cases hk : f.is_key
            · simp only [h, hk, twKeys_cons_of_lt hlt, if_true, ite_true]
              ring
            · simp only [h, hk, twKeys_cons_of_lt hlt, if_false, ite_false]
              ring
          · simp [h]

theorem slowLoop_actualEnd (s e ep : Int) :
    ∀ (L : List IterFrame) (c p : Int) (st : InitAccum),
      contigFrom c p L →
      (e ≤ c → e ≤ st.actual_end_90k) →
      e ≤ c + sumDur L →
      e ≤ (slowLoop s e ep L st).1.actual_end_90k
  | [], c, p, st, _, hstop, hcov => by
      simp only [sumDur, List.map_nil, List.sum_nil, Int.add_zero] at hcov
      simpa [slowLoop] using hstop hcov
  | f :: rest, c, p, st, hcontig, hstop, hcov => by
      obtain ⟨hstart, _, hrest⟩ := hcontig
      have hsum : sumDur (f :: rest) = f.duration_90k + sumDur rest := by
        simp [sumDur]
      rw [hsum] at hcov
      by_cases hb : e ≤ f.start_90k
      · by_cases hc : f.start_90k ≤ s ∧ f.is_key = true
        · simpa [slowLoop, hb, hc] using hstop (by omega)
        · simpa [slowLoop, hb, hc] using hstop (by omega)
      · by_cases hc : f.start_90k ≤ s ∧ f.is_key = true
        · simp only [slowLoop, hb, hc, if_true, if_false, and_self,
            ite_true, ite_false]
          refine slowLoop_actualEnd s e ep rest _ _ _ hrest ?_ ?_
          · intro h; simp; omega
          · omega
        · simp only [slowLoop, hb, hc, if_true, if_false,
            ite_true, ite_false]
          refine slowLoop_actualEnd s e ep rest _ _ _ hrest ?_ ?_
          · intro h; simp; omega
          · omega

/-! Properties of `lastCandidate` on contiguous frame runs. -/

theorem lastCandidate_isSome {s e : Int} (f : IterFrame) (rest : List IterFrame)
    (hs : f.start_90k ≤ s) (hk : f.is_key = true) :
    ∃ L', lastCandidate s e (f :: rest) = some L' := by
  simp only [lastCandidate, hs, hk, and_self, if_true, ite_true]
  by_cases hb : e ≤ f.start_90k
  · exact ⟨f :: rest, by simp [hb]⟩
  · simp only [hb, if_false, ite_false]
    cases hr : lastCandidate s e rest with
    | none => exact ⟨f :: rest, by simp [hr]⟩
    | some r => exact ⟨r, by simp [hr]⟩

theorem lastCandidate_spec {s e : Int} :
    ∀ {L L' : List IterFrame}, lastCandidate s e L = some L' →
      L'.IsSuffix L ∧ ∃ y t, L' = y :: t ∧ y.is_key = true ∧ y.start_90k ≤ s
  | [], L', h => by simp [lastCandidate] at h
  | f :: rest, L', h => by
      simp only [lastCandidate] at h
      by_cases hb : e ≤ f.start_90k
      · rw [if_pos hb] at h
        by_cases hc : f.start_90k ≤ s ∧ f.is_key = true
        · rw [if_pos hc] at h
          injection h with h
          subst h
          exact ⟨List.suffix_refl _, f, rest, rfl, hc.2, hc.1⟩
        · rw [if_neg hc] at h
          exact absurd h (by simp)
      · rw [if_neg hb] at h
        cases hr : lastCandidate s e rest with
        | none =>
            rw [hr] at h
            by_cases hc : f.start_90k ≤ s ∧ f.is_key = true
            · rw [if_pos hc] at h
              injection h with h
              subst h
              exact ⟨List.suffix_refl _, f, rest, rfl, hc.2, hc.1⟩
            · rw [if_neg hc] at h
              exact absurd h (by simp)
        | some r =>
            rw [hr] at h
            injection h with h
            subst h
            obtain ⟨hsuf, hsh⟩ := lastCandidate_spec hr
            exact ⟨hsuf.trans (List.suffix_cons f rest), hsh⟩

theorem lastCandidate_none {s e : Int} (hse : s ≤ e) :
    ∀ (L : List IterFrame) (c p : Int), contigFrom c p L →
      (∀ g ∈ L, 1 ≤ g.duration_90k) → lastCandidate s e L = none →
      ∀ z ∈ L, z.is_key = true → s < z.start_90k
  | [], c, p, _, _, _, z, hz => by simp at hz
  | f :: rest, c, p, hcontig, hdur, hnone, z, hz => by
      intro hzk
      obtain ⟨hstart, _, hrest⟩ := hcontig
      have hdrest : ∀ g ∈ rest, 1 ≤ g.duration_90k :=
        fun g hg => hdur g (by simp [hg])
      simp only [lastCandidate] at hnone
      by_cases hb : e ≤ f.start_90k
      · rw [if_pos hb] at hnone
        by_cases hc : f.start_90k ≤ s ∧ f.is_key = true
        · rw [if_pos hc] at hnone
          exact absurd hnone (by simp)
        · rcases List.mem_cons.mp hz with rfl | hz
          · by_contra hle
            exact hc ⟨not_lt.mp hle, hzk⟩
          · have h1 : 1 ≤ f.duration_90k := hdur f (by simp)
            have h2 := contig_mono rest _ _ hrest hdrest z hz
            linarith
      · rw [if_neg hb] at hnone
        cases hr : lastCandidate s e rest with
        | none =>
            rw [hr] at hnone
            by_cases hc : f.start_90k ≤ s ∧ f.is_key = true
            · rw [if_pos hc] at hnone
              exact absurd hnone (by simp)
            · rcases List.mem_cons.mp hz with rfl | hz
              · by_contra hle
                exact hc ⟨not_lt.mp hle, hzk⟩
              · exact lastCandidate_none hse rest _ _ hrest hdrest hr z hz hzk
        | some r =>
            rw [hr] at hnone
            exact absurd hnone (by simp)

theorem lastCandidate_max {s e : Int} (hse : s ≤ e) :
    ∀ (L : List IterFrame) (c p : Int) (y : IterFrame) (t : List IterFrame),
      contigFrom c p L → (∀ g ∈ L, 1 ≤ g.duration_90k) →
      lastCandidate s e L = some (y :: t) →
      ∀ z ∈ L, z.is_key = true → z.start_90k ≤ s → z.start_90k ≤ y.start_90k
  | [], c, p, y, t, _, _, h => by simp [lastCandidate] at h
  | f :: rest, c, p, y, t, hcontig, hdur, hsome => by
      intro z hz hzk hzs
      obtain ⟨hstart, _, hrest⟩ := hcontig
      have hdrest : ∀ g ∈ rest, 1 ≤ g.duration_90k :=
        fun g hg => hdur g (by simp [hg])
      simp only [lastCandidate] at hsome
      by_cases hb : e ≤ f.start_90k
      · rw [if_pos hb] at hsome
        by_cases hc : f.start_90k ≤ s ∧ f.is_key = true
        · rw [if_pos hc] at hsome
          injection hsome with hsome
          injection hsome with hfy hrt
          subst hfy
          rcases List.mem_cons.mp hz with rfl | hz
          · exact le_refl _
          · have h1 : 1 ≤ f.duration_90k := hdur f (by simp)
            have h2 := contig_mono rest _ _ hrest hdrest z hz
            linarith
        · rw [if_neg hc] at hsome
          exact absurd hsome (by simp)
      · rw [if_neg hb] at hsome
        cases hr : lastCandidate s e rest with
        | none =>
            rw [hr] at hsome
            by_cases hc : f.start_90k ≤ s ∧ f.is_key = true
            · rw [if_pos hc] at hsome
              injection hsome with hsome
              injection hsome with hfy hrt
              subst hfy
              rcases List.mem_cons.mp hz with rfl | hz
              · exact le_refl _
              · have := lastCandidate_none hse rest _ _ hrest hdrest hr z hz hzk
                linarith
            · rw [if_neg hc] at hsome
              exact absurd hsome (by simp)
        | some r =>
            rw [hr] at hsome
            injection hsome with hsome
            subst hsome
            rcases List.mem_cons.mp hz with rfl | hz
            · obtain ⟨hsuf, y2, t2, hshape, _, _⟩ := lastCandidate_spec hr
              injection hshape with hy2 ht2
              subst hy2
              have hy_mem : y ∈ rest := hsuf.subset (by simp)
              have h1 : 1 ≤ z.duration_90k := hdur z (by simp)
              have h2 := contig_mono rest _ _ hrest hdrest y hy_mem
              linarith
            · exact lastCandidate_max hse rest _ _ y t hrest hdrest hr z hz hzk hzs

/-! Unfolding lemmas for `Init`, and the frame-count identities relating
the `Init`-time counters to the filler scans. -/

theorem Init_fast_ok (r : Recording) (sei so s e : Int)
    (hfast : s = 0 ∧ recordingDuration r ≤ e) :
    Mp4SampleTablePieces.Init r sei so s e =
      .ok { sample_entry_index := sei, sample_offset := so,
            desired_end_90k := e,
            begin := some (indexFrames r.video_index),
            sample_pos_begin := 0,
            sample_pos_end := r.sample_file_bytes,
            frames := r.video_samples,
            key_frames := r.video_sync_samples,
            actual_end_90k := recordingDuration r } := by
  unfold Mp4SampleTablePieces.Init
  rw [if_pos hfast]

theorem Init_slow_ok (r : Recording) (sei so s e : Int)
    (hslow : ¬ (s = 0 ∧ recordingDuration r ≤ e))
    (hk : headNotKey (indexFrames r.video_index) = false) :
    Mp4SampleTablePieces.Init r sei so s e =
      .ok { sample_entry_index := sei, sample_offset := so,
            desired_end_90k := e,
            begin := (slowLoop s e (totalIndexBytes r.video_index)
                        (indexFrames r.video_index) initAccum0).1.begin,
            sample_pos_begin := (slowLoop s e (totalIndexBytes r.video_index)
                        (indexFrames r.video_index) initAccum0).1.sample_pos_begin,
            sample_pos_end := (slowLoop s e (totalIndexBytes r.video_index)
                        (indexFrames r.video_index) initAccum0).2,
            frames := (slowLoop s e (totalIndexBytes r.video_index)
                        (indexFrames r.video_index) initAccum0).1.frames,
            key_frames := (slowLoop s e (totalIndexBytes r.video_index)
                        (indexFrames r.video_index) initAccum0).1.key_frames,
            actual_end_90k := (slowLoop s e (totalIndexBytes r.video_index)
                        (indexFrames r.video_index) initAccum0).1.actual_end_90k } := by
  unfold Mp4SampleTablePieces.Init
  rw [if_neg hslow, if_neg (by simp [hk])]

theorem Init_error_of_slow_notKey (r : Recording) (sei so s e : Int)
    (hslow : ¬ (s = 0 ∧ recordingDuration r ≤ e))
    (hk : headNotKey (indexFrames r.video_index) = true) :
    Mp4SampleTablePieces.Init r sei so s e =
      .error ("First frame must be a key frame.") := by
  unfold Mp4SampleTablePieces.Init
  rw [if_neg hslow, if_pos (by simp [hk])]

theorem Init_counts (r : Recording) (sei so s e : Int)
    (p : Mp4SampleTablePieces) (hwf : WFRecording r) (h0 : 0 ≤ s)
    (hinit : Mp4SampleTablePieces.Init r sei so s e = .ok p) :
    ((includedFrames p).length : Int) = p.frames ∧
    (((includedFrames p).filter (fun f => f.is_key)).length : Int) = p.key_frames := by
  obtain ⟨hdur_sum, _, hsamples, hsync, hdpos, hfirst⟩ := hwf
  have hdposI : ∀ g ∈ indexFrames r.video_index, 1 ≤ g.duration_90k :=
    indexFramesFrom_dur_pos hdpos 0 0
  have hcontig : contigFrom 0 0 (indexFrames r.video_index) :=
    indexFramesFrom_contig r.video_index 0 0
  by_cases hfast : s = 0 ∧ recordingDuration r ≤ e
  · rw [Init_fast_ok r sei so s e hfast] at hinit
    injection hinit with hinit
    subst hinit
    have hall : ∀ g ∈ indexFrames r.video_index,
        (decide (g.start_90k < e)) = true := by
      intro g hg
      have h1 := contig_ub (indexFrames r.video_index) 0 0 hcontig hdposI g hg
      have h2 : sumDur (indexFrames r.video_index) = recordingDuration r := by
        rw [indexFrames_sumDur, hdur_sum]
      simp only [decide_eq_true_eq]
      omega
    constructor
    · simp only [includedFrames]
      rw [takeWhile_eq_self_of_all _ hall, indexFrames_length]
      exact hsamples
    · simp only [includedFrames]
      rw [takeWhile_eq_self_of_all _ hall, indexFrames_keys]
      exact hsync
  · by_cases hk : headNotKey (indexFrames r.video_index) = true
    · rw [Init_error_of_slow_notKey r sei so s e hfast hk] at hinit
      exact absurd hinit (by simp)
    · rw [Init_slow_ok r sei so s e hfast (by simpa using hk)] at hinit
      injection hinit with hinit
      subst hinit
      simp only [includedFrames]
      rw [slowLoop_begin, slowLoop_frames, slowLoop_keyFrames]
      cases hidx : r.video_index with
      | nil => simp [hidx, indexFrames, indexFramesFrom, lastCandidate,
          initAccum0, twLen, twKeys]
      | cons g gs =>
          have hgk : g.is_key = true := hfirst g (by simp [hidx])
          rw [indexFrames_cons]
          obtain ⟨L', hL'⟩ := lastCandidate_isSome (s := s) (e := e)
            (⟨0, 0, g.duration_90k, g.bytes, g.is_key⟩ : IterFrame)
            (indexFramesFrom (0 + g.duration_90k) (0 + g.bytes) gs) h0 hgk
          rw [hL']
          exact ⟨rfl, rfl⟩

/-! Filler output lengths, stss sample-number facts, co64 contents, and
header-field folds. -/

theorem FillStts_length (p : Mp4SampleTablePieces) :
    (p.FillSttsEntries).length = 8 * (includedFrames p).length :=
  flatMap_const_length 8 _ (fun f => by simp [be32_length]) _

theorem FillStsz_length (p : Mp4SampleTablePieces) :
    (p.FillStszEntries).length = 4 * (includedFrames p).length :=
  flatMap_const_length 4 _ (fun f => be32_length _) _

theorem FillStss_length (p : Mp4SampleTablePieces) :
    (p.FillStssEntries).length =
      4 * ((includedFrames p).filter (fun f => f.is_key)).length := by
  unfold Mp4SampleTablePieces.FillStssEntries
  rw [flatMap_const_length 4 _ (fun n => be32_length n), fillStssNums_length]

theorem fillStssNums_mem :
    ∀ (L : List IterFrame) (o x : Int),
      x ∈ fillStssNums o L ↔
        ∃ i, ∃ h : i < L.length,
          (L.get ⟨i, h⟩).is_key = true ∧ x = o + i
  | [], o, x => by simp [fillStssNums]
  | f :: rest, o, x => by
      constructor
      · intro hx
        by_cases hk : f.is_key
        · simp only [fillStssNums, hk, if_true, ite_true, List.mem_cons] at hx
          rcases hx with rfl | hx
          · exact ⟨0, by simp, by simpa using hk, by simp⟩
          · obtain ⟨i, h, hkey, hval⟩ := (fillStssNums_mem rest (o + 1) x).mp hx
            refine ⟨i + 1, by simpa using h, by simpa using hkey, ?_⟩
            push_cast at hval ⊢
            omega
        · simp only [fillStssNums, hk, if_false, ite_false] at hx
          obtain ⟨i, h, hkey, hval⟩ := (fillStssNums_mem rest (o + 1) x).mp hx
          refine ⟨i + 1, by simpa using h, by simpa using hkey, ?_⟩
          push_cast at hval ⊢
          omega
      · rintro ⟨i, h, hkey, rfl⟩
        cases i with
        | zero =>
            simp only [List.get] at hkey
            simp [fillStssNums, hkey]
        | succ i =>
            have hi : i < rest.length := by simpa using h
            have hmem : (o + 1) + (i : Int) ∈ fillStssNums (o + 1) rest := by
              refine (fillStssNums_mem rest (o + 1) _).mpr ⟨i, hi, ?_, rfl⟩
              simpa using hkey
            by_cases hk : f.is_key
            · simp only [fillStssNums, hk, if_true, ite_true, List.mem_cons]
              right
              convert hmem using 1
              push_cast
              ring
            · simp only [fillStssNums, hk, if_false, ite_false]
              convert hmem using 1
              push_cast
              ring

theorem fillStssNums_bounds :
    ∀ (L : List IterFrame) (o : Int),
      ∀ x ∈ fillStssNums o L, o ≤ x ∧ x < o + L.length
  | [], o, x, hx => by simp [fillStssNums] at hx
  | f :: rest, o, x, hx => by
      by_cases hk : f.is_key
      · simp only [fillStssNums, hk, if_true, ite_true, List.mem_cons] at hx
        rcases hx with rfl | hx
        · constructor
          · exact le_refl _
          · simp only [List.length_cons]
            push_cast
            omega
        · have := fillStssNums_bounds rest (o + 1) x hx
          simp only [List.length_cons]
          push_cast at this ⊢
          omega
      · simp only [fillStssNums, hk, if_false, ite_false] at hx
        have := fillStssNums_bounds rest (o + 1) x hx
        simp only [List.length_cons]
        push_cast at this ⊢
        omega

theorem fillStssNums_sorted :
    ∀ (L : List IterFrame) (o : Int),
      List.Pairwise (· < ·) (fillStssNums o L)
  | [], o => by simp [fillStssNums]
  | f :: rest, o => by
      by_cases hk : f.is_key
      · simp only [fillStssNums, hk, if_true, ite_true]
        refine List.Pairwise.cons ?_ (fillStssNums_sorted rest (o + 1))
        intro y hy
        have := (fillStssNums_bounds rest (o + 1) y hy).1
        omega
      · simp only [fillStssNums, hk, if_false, ite_false]
        exact fillStssNums_sorted rest (o + 1)

theorem co64From_length :
    ∀ (segs : List Mp4FileSegment) (pos : Int),
      (co64From pos segs).length = segs.length
  | [], _ => rfl
  | s :: rest, pos => by simp [co64From, co64From_length rest]

theorem co64From_get :
    ∀ (segs : List Mp4FileSegment) (pos : Int) (i : Nat)
      (h : i < (co64From pos segs).length) (h2 : i < segs.length),
      (co64From pos segs).get ⟨i, h⟩ =
        pos + ((segs.take i).map sampleFileSliceSize).sum
  | [], pos, i, h, h2 => by simp at h2
  | s :: rest, pos, 0, h, h2 => by simp [co64From]
  | s :: rest, pos, i + 1, h, h2 => by
      have hr : i < (co64From (pos + sampleFileSliceSize s) rest).length := by
        simpa [co64From, co64From_length] using h
      have hr2 : i < rest.length := by simpa using h2
      simp only [co64From, List.get_cons_succ]
      rw [co64From_get rest (pos + sampleFileSliceSize s) i hr hr2]
      simp [List.take_succ_cons]
      ring

theorem mp4Duration_fold :
    ∀ (segs : List Mp4FileSegment) (a : Int),
      segs.foldl (fun d s => u32wrap (d + s.pieces.duration_90k)) (u32wrap a) =
        u32wrap (a + (segs.map (fun s => s.pieces.duration_90k)).sum)
  | [], a => by simp
  | s :: rest, a => by
      have h1 : u32wrap (u32wrap a + s.pieces.duration_90k) =
          u32wrap (a + s.pieces.duration_90k) := by
        unfold u32wrap
        exact Int.emod_add_emod a (2 ^ 32) s.pieces.duration_90k
      simp only [List.foldl_cons, List.map_cons, List.sum_cons]
      rw [h1, mp4Duration_fold rest (a + s.pieces.duration_90k)]
      unfold u32wrap
      congr 1
      ring

theorem foldl_max_init_le (g : Mp4FileSegment → Int) :
    ∀ (segs : List Mp4FileSegment) (a : Int),
      a ≤ segs.foldl (fun m s => max m (g s)) a
  | [], a => le_refl a
  | s :: rest, a => by
      simp only [List.foldl_cons]
      exact le_trans (le_max_left a (g s)) (foldl_max_init_le g rest _)

theorem mp4MaxTime90k_nonneg (segs : List Mp4FileSegment) :
    0 ≤ mp4MaxTime90k segs :=
  foldl_max_init_le _ segs 0

theorem Init_fields (r : Recording) (sei so s e : Int) (p : Mp4SampleTablePieces)
    (h : Mp4SampleTablePieces.Init r sei so s e = .ok p) :
    p.sample_entry_index = sei ∧ p.sample_offset = so ∧ p.desired_end_90k = e := by
  simp only [Mp4SampleTablePieces.Init] at h
  split_ifs at h with h1 h2 <;>
    (try (injection h with h; subst h)) <;>
      first
        | exact ⟨rfl, rfl, rfl⟩
        | exact absurd h (by simp)

theorem buildSegments_ok (entry : VideoSampleEntry) :
    ∀ (items : List (Recording × Int × Int)) (o : Int)
      (segs : List Mp4FileSegment),
      buildSegments entry o items = .ok segs →
      offsetsFrom o segs ∧
      ∀ seg ∈ segs, ∃ rs re, (seg.recording, rs, re) ∈ items ∧
        Mp4SampleTablePieces.Init seg.recording 1 seg.pieces.sample_offset rs re =
          .ok seg.pieces
  | [], o, segs, h => by
      simp only [buildSegments] at h
      injection h with h
      subst h
      exact ⟨trivial, by simp⟩
  | (r, rs, re) :: rest, o, segs, h => by
      simp only [buildSegments] at h
      by_cases hid : r.video_sample_entry_id ≠ entry.id
      · rw [if_pos hid] at h
        exact absurd h (by simp)
      · rw [if_neg hid] at h
        split at h
        · exact absurd h (by simp)
        · next p hI =>
            split at h
            · exact absurd h (by simp)
            · next segs2 hR =>
                injection h with h
                subst h
                obtain ⟨hoff2, hmem2⟩ := buildSegments_ok entry rest _ _ hR
                have hpo : p.sample_offset = o := (Init_fields r 1 o rs re p hI).2.1
                constructor
                · exact ⟨hpo, by
                    simpa [Mp4SampleTablePieces.samples] using hoff2⟩
                · intro seg hseg
                  rcases List.mem_cons.mp hseg with rfl | hseg
                  · exact ⟨rs, re, by simp, by rw [hpo]; exact hI⟩
                  · obtain ⟨rs2, re2, hin, hinit2⟩ := hmem2 seg hseg
                    exact ⟨rs2, re2, by simp [hin], hinit2⟩

theorem Build_ok (entry : VideoSampleEntry) (items : List (Recording × Int × Int))
    (segs : List Mp4FileSegment)
    (h : Mp4FileBuilder.Build entry items = .ok segs) :
    buildSegments entry 1 items = .ok segs := by
  unfold Mp4FileBuilder.Build at h
  split at h
  · exact absurd h (by simp)
  · next segs2 hB =>
      split at h
      · exact absurd h (by simp)
      · injection h with h
        subst h
        exact hB

theorem stss_global :
    ∀ (segs : List Mp4FileSegment) (o : Int),
      offsetsFrom o segs →
      (∀ seg ∈ segs, ((includedFrames seg.pieces).length : Int) = seg.pieces.frames) →
      List.Pairwise (· < ·) (mp4StssNums segs) ∧ ∀ x ∈ mp4StssNums segs, o ≤ x
  | [], o, _, _ => by simp [mp4StssNums]
  | s :: rest, o, hoff, hlen => by
      obtain ⟨ho, hoff2⟩ := hoff
      have hlen_s := hlen s (by simp)
      have ih := stss_global rest (o + s.pieces.frames) hoff2
        (fun seg hseg => hlen seg (by simp [hseg]))
      have hbounds := fillStssNums_bounds (includedFrames s.pieces)
        s.pieces.sample_offset
      constructor
      · simp only [mp4StssNums, List.flatMap_cons]
        rw [List.pairwise_append]
        refine ⟨fillStssNums_sorted _ _, ih.1, ?_⟩
        intro a ha b hb
        have h1 := (hbounds a ha).2
        have h2 := ih.2 b hb
        rw [ho, hlen_s] at h1
        omega
      · intro x hx
        simp only [mp4StssNums, List.flatMap_cons, List.mem_append] at hx
        have hfr : 0 ≤ s.pieces.frames := by
          rw [← hlen_s]
          positivity
        rcases hx with hx | hx
        · have := (hbounds x hx).1
          rw [ho] at this
          exact this
        · have := ih.2 x hx
          omega

theorem buildSegments_err (entry : VideoSampleEntry) :
    ∀ (items : List (Recording × Int × Int)) (o : Int),
      (∃ x ∈ items, headNotKey (indexFrames x.1.video_index) = true ∧
        ¬ (x.2.1 = 0 ∧ recordingDuration x.1 ≤ x.2.2)) →
      ∃ m, buildSegments entry o items = .error m
  | [], o, hbad => by simp at hbad
  | (r, rs, re) :: rest, o, hbad => by
      by_cases hid : r.video_sample_entry_id ≠ entry.id
      · exact ⟨"inconsistent video sample entries.",
          by simp [buildSegments, hid]⟩
      · obtain ⟨x, hx, hxk, hxs⟩ := hbad
        rcases List.mem_cons.mp hx with rfl | hx
        · refine ⟨"First frame must be a key frame.", ?_⟩
          have hinit := Init_error_of_slow_notKey r 1 o rs re hxs hxk
          simp [buildSegments, hid, hinit]
        · cases hI : Mp4SampleTablePieces.Init r 1 o rs re with
          | error m =>
              exact ⟨m, by simp [buildSegments, hid, hI]⟩
          | ok p =>
              obtain ⟨m, hm⟩ := buildSegments_err entry rest (o + p.samples)
                ⟨x, hx, hxk, hxs⟩
              exact ⟨m, by simp [buildSegments, hid, hI, hm]⟩

theorem map_sum_take_succ (f : Mp4FileSegment → Int) :
    ∀ (l : List Mp4FileSegment) (i : Nat) (h : i < l.length),
      ((l.take (i + 1)).map f).sum =
        ((l.take i).map f).sum + f (l.get ⟨i, h⟩)
  | [], i, h => by simp at h
  | x :: rest, 0, h => by simp
  | x :: rest, i + 1, h => by
      have hr : i < rest.length := by simpa using h
      simp only [List.take_succ_cons, List.map_cons, List.sum_cons,
        List.get_cons_succ]
      rw [map_sum_take_succ f rest i hr]
      ring

/-! Claim theorems. -/

/-- Claim C1, counterexample: in the concrete one-segment Mp4File built
from `cRec1`, the stored mdat `largesize` is 17 while the total of the
segment sample-file slice sizes (the bytes between the end of the mdat
header and EOF) is 1 — the claim that `largesize` excludes the mdat
header bytes is false; the code computes `slices_.size() - size_before_mdat`,
which includes the 16 header bytes. -/
theorem c1_counterexample :
    mdatLargesize cSegs1 cEntry = 17 ∧ segsSliceSum cSegs1 = 1 ∧
      mdatLargesize cSegs1 cEntry ≠ segsSliceSum cSegs1 := by decide

/-- Claim C1, amended: for every constructed Mp4File, the mdat
`largesize` field equals 16 (the mdat header bytes) plus the total of the
segments' sample_file_slice sizes, i.e. the byte count from the start of
the mdat box to the end of the virtual file, reduced to unsigned 64-bit
range. -/
theorem c1_mdat_largesize (segs : List Mp4FileSegment)
    (entry : VideoSampleEntry) :
    mdatLargesize segs entry = u64wrap (16 + segsSliceSum segs) := by
  unfold mdatLargesize mp4TotalSize initialSampleBytePos
  congr 1
  ring

/-- Claim C5: for every built Mp4File with n segments, the co64 table has
exactly n entries; entry 0 equals `initial_sample_byte_pos` (the offset
of the first byte after the mdat header); and each consecutive difference
equals the corresponding segment's sample_file_slice size. -/
theorem c5_co64_entries (segs : List Mp4FileSegment)
    (entry : VideoSampleEntry) :
    (FillCo64Entries segs entry).length = segs.length ∧
    (∀ h : 0 < (FillCo64Entries segs entry).length,
      (FillCo64Entries segs entry).get ⟨0, h⟩ =
        initialSampleBytePos segs entry) ∧
    ∀ (i : Nat) (h1 : i + 1 < (FillCo64Entries segs entry).length)
      (h2 : i < segs.length),
      (FillCo64Entries segs entry).get ⟨i + 1, h1⟩ -
        (FillCo64Entries segs entry).get ⟨i, by omega⟩ =
        sampleFileSliceSize (segs.get ⟨i, h2⟩) := by
  unfold FillCo64Entries
  refine ⟨co64From_length segs _, ?_, ?_⟩
  · intro h
    have h2 : 0 < segs.length := by
      have := co64From_length segs (initialSampleBytePos segs entry)
      omega
    rw [co64From_get segs _ 0 h h2]
    simp
  · intro i h1 h2
    have h3 : i + 1 < segs.length := by
      have := co64From_length segs (initialSampleBytePos segs entry)
      omega
    rw [co64From_get segs _ (i + 1) h1 h3,
      co64From_get segs _ i (by omega) (by omega),
      map_sum_take_succ sampleFileSliceSize segs i h2]
    ring

/-- Claim C5, witness: the concrete two-segment file built from `cRec4`
and `cRec2` has two co64 entries, the first at the initial sample byte
position and the second one slice size later. -/
theorem c5_witness :
    (FillCo64Entries cSegs2 cEntry).length = cSegs2.length ∧
    (FillCo64Entries cSegs2 cEntry).get ⟨0, by decide⟩ =
      initialSampleBytePos cSegs2 cEntry ∧
    (FillCo64Entries cSegs2 cEntry).get ⟨1, by decide⟩ -
      (FillCo64Entries cSegs2 cEntry).get ⟨0, by decide⟩ =
      sampleFileSliceSize (cSegs2.get ⟨0, by decide⟩) :=
  ⟨(c5_co64_entries cSegs2 cEntry).1,
   (c5_co64_entries cSegs2 cEntry).2.1 (by decide),
   (c5_co64_entries cSegs2 cEntry).2.2 0 (by decide) (by decide)⟩

/-- Claim C6: whenever `Init` is called with `start_90k = 0` and
`end_90k ≥` the recording's duration, it takes the fast path and returns
success with `frames = video_samples`, `key_frames = video_sync_samples`,
`sample_pos = [0, sample_file_bytes)`, `actual_end_90k` equal to the
duration, and `begin` the iterator at position 0. -/
theorem c6_fast_path (r : Recording) (sei so s e : Int)
    (hs : s = 0) (he : recordingDuration r ≤ e) :
    Mp4SampleTablePieces.Init r sei so s e =
      .ok { sample_entry_index := sei, sample_offset := so,
            desired_end_90k := e,
            begin := some (indexFrames r.video_index),
            sample_pos_begin := 0,
            sample_pos_end := r.sample_file_bytes,
            frames := r.video_samples,
            key_frames := r.video_sync_samples,
            actual_end_90k := recordingDuration r } :=
  Init_fast_ok r sei so s e ⟨hs, he⟩

/-- Claim C6, witness: the fast path on the concrete recording `cRec1`
with window `[0, 3)`. -/
theorem c6_witness :
    Mp4SampleTablePieces.Init cRec1 1 5 0 3 =
      .ok { sample_entry_index := 1, sample_offset := 5,
            desired_end_90k := 3,
            begin := some (indexFrames cRec1.video_index),
            sample_pos_begin := 0,
            sample_pos_end := cRec1.sample_file_bytes,
            frames := cRec1.video_samples,
            key_frames := cRec1.video_sync_samples,
            actual_end_90k := recordingDuration cRec1 } :=
  c6_fast_path cRec1 1 5 0 3 rfl (by decide)

/-- Claim C8: for every constructed Mp4File, the duration written into
the mvhd, tkhd and mdhd headers is the sum of the segments'
`pieces.duration_90k()` values reduced modulo 2^32 (the constructor
accumulates them in a `uint32_t`), not the exact wide sum. -/
theorem c8_duration_mod32 (segs : List Mp4FileSegment) :
    (appendMoovFields segs).mvhd_duration =
      u32wrap ((segs.map (fun s => s.pieces.duration_90k)).sum) ∧
    (appendMoovFields segs).tkhd_duration =
      u32wrap ((segs.map (fun s => s.pieces.duration_90k)).sum) ∧
    (appendMoovFields segs).mdhd_duration =
      u32wrap ((segs.map (fun s => s.pieces.duration_90k)).sum) := by
  have h : mp4Duration segs =
      u32wrap ((segs.map (fun s => s.pieces.duration_90k)).sum) := by
    have hfold := mp4Duration_fold segs 0
    simp only [Int.zero_add] at hfold
    have h0 : u32wrap (0 : Int) = 0 := by unfold u32wrap; decide
    unfold mp4Duration
    rw [← h0] at hfold ⊢
    simpa using hfold
  exact ⟨h, h, h⟩

/-- Claim C9: for every constructed Mp4File, the creation_time and
modification_time fields of mvhd, tkhd and mdhd all equal the same value:
the 32-bit truncation of `max_time_90k / 90000 + 24107 * 86400`
(seconds since 1904-01-01 UTC) computed by `ToIso14496Timestamp`.  The
hypothesis records that the 64-bit `max_time_90k` is within the unsigned
64-bit range of the conversion. -/
theorem c9_header_timestamps (segs : List Mp4FileSegment)
    (hbound : mp4MaxTime90k segs < 2 ^ 64) :
    (appendMoovFields segs).mvhd_creation_time =
      u32wrap (mp4MaxTime90k segs / 90000 + 24107 * 86400) ∧
    (appendMoovFields segs).mvhd_modification_time =
      u32wrap (mp4MaxTime90k segs / 90000 + 24107 * 86400) ∧
    (appendMoovFields segs).tkhd_creation_time =
      u32wrap (mp4MaxTime90k segs / 90000 + 24107 * 86400) ∧
    (appendMoovFields segs).tkhd_modification_time =
      u32wrap (mp4MaxTime90k segs / 90000 + 24107 * 86400) ∧
    (appendMoovFields segs).mdhd_creation_time =
      u32wrap (mp4MaxTime90k segs / 90000 + 24107 * 86400) ∧
    (appendMoovFields segs).mdhd_modification_time =
      u32wrap (mp4MaxTime90k segs / 90000 + 24107 * 86400) := by
  have h0 : 0 ≤ mp4MaxTime90k segs := mp4MaxTime90k_nonneg segs
  have hwrap : u64wrap (mp4MaxTime90k segs) = mp4MaxTime90k segs := by
    unfold u64wrap
    exact Int.emod_eq_of_lt h0 hbound
  have h : ToIso14496Timestamp (mp4MaxTime90k segs) =
      u32wrap (mp4MaxTime90k segs / 90000 + 24107 * 86400) := by
    unfold ToIso14496Timestamp
    rw [hwrap]
  exact ⟨h, h, h, h, h, h⟩

/-- Claim C9, witness: the timestamp fields of the empty-segment header
computation evaluate to the common truncated value. -/
theorem c9_witness :
    (appendMoovFields []).mvhd_creation_time =
      u32wrap (mp4MaxTime90k [] / 90000 + 24107 * 86400) ∧
    (appendMoovFields []).mvhd_modification_time =
      u32wrap (mp4MaxTime90k [] / 90000 + 24107 * 86400) ∧
    (appendMoovFields []).tkhd_creation_time =
      u32wrap (mp4MaxTime90k [] / 90000 + 24107 * 86400) ∧
    (appendMoovFields []).tkhd_modification_time =
      u32wrap (mp4MaxTime90k [] / 90000 + 24107 * 86400) ∧
    (appendMoovFields []).mdhd_creation_time =
      u32wrap (mp4MaxTime90k [] / 90000 + 24107 * 86400) ∧
    (appendMoovFields []).mdhd_modification_time =
      u32wrap (mp4MaxTime90k [] / 90000 + 24107 * 86400) :=
  c9_header_timestamps [] (by decide)

/-- Claim C2, counterexample: the slow-path window `[1, 20)` on `cRec2`
(duration 10) satisfies `0 ≤ start ≤ end`, `Init` succeeds, but the
actual end is 10 < 20 — the returned window does not enclose the
requested one when the request extends past the recording. -/
theorem c2_counterexample :
    (0 : Int) ≤ 1 ∧ (1 : Int) ≤ 20 ∧
    ¬ ((1 : Int) = 0 ∧ recordingDuration cRec2 ≤ 20) ∧
    (Mp4SampleTablePieces.Init cRec2 1 1 1 20).toOption.map
      (fun p => p.actual_end_90k) = some 10 ∧
    ¬ ((20 : Int) ≤ (10 : Int)) := by decide

/-- Claim C2, amended: for a slow-path window with
`0 ≤ start_90k ≤ end_90k` that additionally satisfies
`end_90k ≤` the recording's duration, a successful `Init` leaves `begin`
at the latest key frame whose start is at or before `start_90k`, and the
actual window `[begin.start_90k, actual_end_90k)` encloses the requested
one (`begin.start_90k ≤ start_90k` and `actual_end_90k ≥ end_90k`). -/
theorem c2_window_enclosure (r : Recording) (sei so s e : Int)
    (p : Mp4SampleTablePieces) (hwf : WFRecording r)
    (h0 : 0 ≤ s) (hse : s ≤ e) (hcov : e ≤ recordingDuration r)
    (hslow : ¬ (s = 0 ∧ recordingDuration r ≤ e))
    (hinit : Mp4SampleTablePieces.Init r sei so s e = .ok p) :
    ∃ y t, p.begin = some (y :: t) ∧
      (y :: t).IsSuffix (indexFrames r.video_index) ∧
      y.is_key = true ∧ y.start_90k ≤ s ∧
      (∀ z ∈ indexFrames r.video_index,
        z.is_key = true → z.start_90k ≤ s → z.start_90k ≤ y.start_90k) ∧
      e ≤ p.actual_end_90k := by
  obtain ⟨hdur_sum, _, _, _, hdpos, hfirst⟩ := hwf
  have hdposI := indexFramesFrom_dur_pos hdpos 0 0
  have hcontig := indexFramesFrom_contig r.video_index 0 0
  have hne : r.video_index ≠ [] := by
    intro hnil
    apply hslow
    have hz : recordingDuration r = 0 := by
      rw [← hdur_sum, hnil]
      simp
    constructor
    · omega
    · omega
  obtain ⟨g, gs, hidx⟩ := List.exists_cons_of_ne_nil hne
  have hgk : g.is_key = true := hfirst g (by rw [hidx]; simp)
  have hk : headNotKey (indexFrames r.video_index) = false := by
    rw [hidx, indexFrames_cons]
    simp [headNotKey, hgk]
  rw [Init_slow_ok r sei so s e hslow hk] at hinit
  injection hinit with hinit
  subst hinit
  obtain ⟨L', hL'⟩ : ∃ L',
      lastCandidate s e (indexFrames r.video_index) = some L' := by
    rw [hidx, indexFrames_cons]
    exact lastCandidate_isSome _ _ (by simpa using h0) hgk
  obtain ⟨hsuf, y, t, hshape, hyk, hys⟩ := lastCandidate_spec hL'
  subst hshape
  refine ⟨y, t, ?_, hsuf, hyk, hys, ?_, ?_⟩
  · show (slowLoop s e (totalIndexBytes r.video_index)
      (indexFrames r.video_index) initAccum0).1.begin = some (y :: t)
    rw [slowLoop_begin, hL']
  · exact lastCandidate_max hse (indexFrames r.video_index) 0 0 y t
      hcontig hdposI hL'
  · show e ≤ (slowLoop s e (totalIndexBytes r.video_index)
      (indexFrames r.video_index) initAccum0).1.actual_end_90k
    refine slowLoop_actualEnd s e (totalIndexBytes r.video_index)
      (indexFrames r.video_index) 0 0 initAccum0 hcontig ?_ ?_
    · intro h
      simpa [initAccum0] using h
    · rw [indexFrames_sumDur, hdur_sum]
      omega

/-- Claim C2, witness: the slow-path window `[5, 7)` on `cRec4`, whose
latest key frame at or before tick 5 starts at tick 4. -/
theorem c2_witness :
    ∃ y t, cP2.begin = some (y :: t) ∧
      (y :: t).IsSuffix (indexFrames cRec4.video_index) ∧
      y.is_key = true ∧ y.start_90k ≤ 5 ∧
      (∀ z ∈ indexFrames cRec4.video_index,
        z.is_key = true → z.start_90k ≤ 5 → z.start_90k ≤ y.start_90k) ∧
      (7 : Int) ≤ cP2.actual_end_90k :=
  c2_window_enclosure cRec4 1 1 5 7 cP2 (by decide) (by decide) (by decide)
    (by decide) (by decide) rfl

/-- Claim C3: after a successful `Init`, each filler produces exactly the
byte count declared at `Init` time — `FillSttsEntries` yields `8 * frames`
bytes, `FillStszEntries` `4 * frames` bytes, and `FillStssEntries`
`4 * key_frames` bytes — so the FillerWrongSize error branch cannot fire
for these slices. -/
theorem c3_filler_sizes (r : Recording) (sei so s e : Int)
    (p : Mp4SampleTablePieces) (hwf : WFRecording r) (h0 : 0 ≤ s)
    (hinit : Mp4SampleTablePieces.Init r sei so s e = .ok p) :
    ((p.FillSttsEntries).length : Int) = sttsDeclaredSize p ∧
    ((p.FillStszEntries).length : Int) = stszDeclaredSize p ∧
    ((p.FillStssEntries).length : Int) = stssDeclaredSize p := by
  obtain ⟨hfr, hkf⟩ := Init_counts r sei so s e p hwf h0 hinit
  refine ⟨?_, ?_, ?_⟩
  · rw [FillStts_length]
    unfold sttsDeclaredSize
    push_cast
    rw [← hfr]
  · rw [FillStsz_length]
    unfold stszDeclaredSize
    push_cast
    rw [← hfr]
  · rw [FillStss_length]
    unfold stssDeclaredSize
    push_cast
    rw [← hkf]

/-- Claim C3, witness: the slow-path window `[3, 7)` on `cRec4` declares
and produces 32 stts bytes, 16 stsz bytes and 8 stss bytes. -/
theorem c3_witness :
    ((cP4.FillSttsEntries).length : Int) = sttsDeclaredSize cP4 ∧
    ((cP4.FillStszEntries).length : Int) = stszDeclaredSize cP4 ∧
    ((cP4.FillStssEntries).length : Int) = stssDeclaredSize cP4 :=
  c3_filler_sizes cRec4 1 1 3 7 cP4 (by decide) (by decide) rfl

/-- Claim C10: a slow-path window that selects no frames — the index is
empty, or every frame starts at or past `end_90k` — makes `Init` succeed
with `frames = 0` and `key_frames = 0`; in particular the key-frame
precondition check is skipped entirely when the index is empty. -/
theorem c10_empty_window (r : Recording) (sei so s e : Int)
    (hwf : WFRecording r)
    (hslow : ¬ (s = 0 ∧ recordingDuration r ≤ e))
    (hnone : r.video_index = [] ∨
      ∀ g ∈ indexFrames r.video_index, e ≤ g.start_90k) :
    ∃ p, Mp4SampleTablePieces.Init r sei so s e = .ok p ∧
      p.frames = 0 ∧ p.key_frames = 0 := by
  obtain ⟨_, _, _, _, _, hfirst⟩ := hwf
  have hk : headNotKey (indexFrames r.video_index) = false := by
    cases hidx : r.video_index with
    | nil => rfl
    | cons g gs =>
        have hgk : g.is_key = true := hfirst g (by rw [hidx]; simp)
        rw [indexFrames_cons]
        simp [headNotKey, hgk]
  refine ⟨_, Init_slow_ok r sei so s e hslow hk, ?_, ?_⟩
  · show (slowLoop s e (totalIndexBytes r.video_index)
      (indexFrames r.video_index) initAccum0).1.frames = 0
    rw [slowLoop_frames]
    cases hc : lastCandidate s e (indexFrames r.video_index) with
    | none =>
        rcases hnone with hidx | hall
        · rw [hidx]
          simp [indexFrames, indexFramesFrom, twLen, initAccum0]
        · cases hL : indexFrames r.video_index with
          | nil => simp [twLen, initAccum0]
          | cons f fs =>
              have hf : e ≤ f.start_90k := hall f (by rw [hL]; simp)
              simp [initAccum0, twLen_cons_of_ge hf]
    | some x =>
        obtain ⟨hsuf, y, t, hshape, hyk, hys⟩ := lastCandidate_spec hc
        subst hshape
        rcases hnone with hidx | hall
        · rw [hidx] at hc
          simp [indexFrames, indexFramesFrom, lastCandidate] at hc
        · have hy : y ∈ indexFrames r.video_index := hsuf.subset (by simp)
          exact twLen_cons_of_ge (hall y hy)
  · show (slowLoop s e (totalIndexBytes r.video_index)
      (indexFrames r.video_index) initAccum0).1.key_frames = 0
    rw [slowLoop_keyFrames]
    cases hc : lastCandidate s e (indexFrames r.video_index) with
    | none =>
        rcases hnone with hidx | hall
        · rw [hidx]
          simp [indexFrames, indexFramesFrom, twKeys, initAccum0]
        · cases hL : indexFrames r.video_index with
          | nil => simp [twKeys, initAccum0]
          | cons f fs =>
              have hf : e ≤ f.start_90k := hall f (by rw [hL]; simp)
              simp [initAccum0, twKeys_cons_of_ge hf]
    | some x =>
        obtain ⟨hsuf, y, t, hshape, hyk, hys⟩ := lastCandidate_spec hc
        subst hshape
        rcases hnone with hidx | hall
        · rw [hidx] at hc
          simp [indexFrames, indexFramesFrom, lastCandidate] at hc
        · have hy : y ∈ indexFrames r.video_index := hsuf.subset (by simp)
          exact twKeys_cons_of_ge (hall y hy)

/-- Claim C10, witness: a slow-path call on an empty-index recording
succeeds with zero counters. -/
theorem c10_witness :
    ∃ p, Mp4SampleTablePieces.Init
        { start_time_90k := 0, end_time_90k := 0, sample_file_bytes := 0,
          video_samples := 0, video_sync_samples := 0,
          video_sample_entry_id := 1, video_index := [] } 1 1 1 2 = .ok p ∧
      p.frames = 0 ∧ p.key_frames = 0 :=
  c10_empty_window
    { start_time_90k := 0, end_time_90k := 0, sample_file_bytes := 0,
      video_samples := 0, video_sync_samples := 0,
      video_sample_entry_id := 1, video_index := [] } 1 1 1 2
    (by decide) (by decide) (Or.inl rfl)

/-- Claim C4: after a successful Build, segment sample offsets start at 1
and advance by each segment's frame count; each segment's stss slice
holds, for each included frame at position `i` that is a key frame, the
value `sample_offset + i` with `i < frames`; and the concatenated sync
sample numbers of the whole file are at least 1 and strictly
increasing. -/
theorem c4_stss_numbers (entry : VideoSampleEntry)
    (items : List (Recording × Int × Int)) (segs : List Mp4FileSegment)
    (hwf : ∀ x ∈ items, WFRecording x.1 ∧ 0 ≤ x.2.1)
    (hb : Mp4FileBuilder.Build entry items = .ok segs) :
    offsetsFrom 1 segs ∧
    (∀ seg ∈ segs, ∀ x : Int,
      x ∈ fillStssNums seg.pieces.sample_offset (includedFrames seg.pieces) ↔
        ∃ i, ∃ h : i < (includedFrames seg.pieces).length,
          ((includedFrames seg.pieces).get ⟨i, h⟩).is_key = true ∧
          x = seg.pieces.sample_offset + i ∧
          (i : Int) < seg.pieces.frames) ∧
    List.Pairwise (· < ·) (mp4StssNums segs) ∧
    (∀ x ∈ mp4StssNums segs, 1 ≤ x) := by
  obtain ⟨hoff, hmem⟩ :=
    buildSegments_ok entry items 1 segs (Build_ok entry items segs hb)
  have hlen : ∀ seg ∈ segs,
      ((includedFrames seg.pieces).length : Int) = seg.pieces.frames := by
    intro seg hseg
    obtain ⟨rs, re, hin, hinit⟩ := hmem seg hseg
    obtain ⟨hW, h0⟩ := hwf (seg.recording, rs, re) hin
    exact (Init_counts seg.recording 1 seg.pieces.sample_offset rs re
      seg.pieces hW h0 hinit).1
  obtain ⟨hpw, hge⟩ := stss_global segs 1 hoff hlen
  refine ⟨hoff, ?_, hpw, hge⟩
  intro seg hseg x
  rw [fillStssNums_mem]
  constructor
  · rintro ⟨i, h, hkey, hval⟩
    refine ⟨i, h, hkey, hval, ?_⟩
    rw [← hlen seg hseg]
    exact_mod_cast h
  · rintro ⟨i, h, hkey, hval, _⟩
    exact ⟨i, h, hkey, hval⟩

/-- Claim C4, witness: the two-segment concrete file has offsets 1 and 5,
stss numbers `[1, 3, 5]`, all at least 1 and strictly increasing, and
membership matches the key positions. -/
theorem c4_witness :
    offsetsFrom 1 cSegs2 ∧
    (∀ seg ∈ cSegs2, ∀ x : Int,
      x ∈ fillStssNums seg.pieces.sample_offset (includedFrames seg.pieces) ↔
        ∃ i, ∃ h : i < (includedFrames seg.pieces).length,
          ((includedFrames seg.pieces).get ⟨i, h⟩).is_key = true ∧
          x = seg.pieces.sample_offset + i ∧
          (i : Int) < seg.pieces.frames) ∧
    List.Pairwise (· < ·) (mp4StssNums cSegs2) ∧
    (∀ x ∈ mp4StssNums cSegs2, 1 ≤ x) :=
  c4_stss_numbers cEntry [(cRec4, 0, 8), (cRec2, 0, 10)] cSegs2
    (by decide) rfl

/-- Claim C7, counterexample: `cRec3`'s first (and only) frame is not a
key frame, yet `Init` with the fast-path window `[0, 1)` succeeds and
`Build` returns a non-null file — the fast path skips the key-frame
check, so the claim that such a recording always fails Build is false. -/
theorem c7_counterexample :
    headNotKey (indexFrames cRec3.video_index) = true ∧
    (Mp4SampleTablePieces.Init cRec3 1 1 0 1).toOption.isSome = true ∧
    (Mp4FileBuilder.Build cEntry [(cRec3, 0, 1)]).toOption.isSome = true := by
  decide

/-- Claim C7, amended: on the slow path only (`start_90k ≠ 0` or
`end_90k <` the recording's duration), a recording whose first frame is
not a key frame makes `Init` fail with the NotKeyFramed message, and
`Build` returns a null VirtualFile for any segment list containing such a
recording with a slow-path window; a fast-path window bypasses the
check. -/
theorem c7_not_key_framed :
    (∀ (r : Recording) (sei so s e : Int),
      headNotKey (indexFrames r.video_index) = true →
      ¬ (s = 0 ∧ recordingDuration r ≤ e) →
      Mp4SampleTablePieces.Init r sei so s e =
        .error ("First frame must be a key frame.")) ∧
    (∀ (entry : VideoSampleEntry) (items : List (Recording × Int × Int)),
      (∃ x ∈ items, headNotKey (indexFrames x.1.video_index) = true ∧
        ¬ (x.2.1 = 0 ∧ recordingDuration x.1 ≤ x.2.2)) →
      ∃ m, Mp4FileBuilder.Build entry items = .error m) := by
  constructor
  · intro r sei so s e hk hslow
    exact Init_error_of_slow_notKey r sei so s e hslow hk
  · intro entry items hbad
    obtain ⟨m, hm⟩ := buildSegments_err entry items 1 hbad
    exact ⟨m, by simp [Mp4FileBuilder.Build, hm]⟩

/-- Claim C7, witness: the slow-path window `[1, 1)` on `cRec3` fails
`Init` with the NotKeyFramed message and makes `Build` return null. -/
theorem c7_witness :
    Mp4SampleTablePieces.Init cRec3 1 1 1 1 =
      .error ("First frame must be a key frame.") ∧
    ∃ m, Mp4FileBuilder.Build cEntry [(cRec3, 1, 1)] = .error m :=
  ⟨c7_not_key_framed.1 cRec3 1 1 1 1 (by decide) (by decide),
   c7_not_key_framed.2 cEntry [(cRec3, 1, 1)]
     ⟨(cRec3, 1, 1), by simp, by decide, by decide⟩⟩

end MoonfireMp4
